import Mathlib

/-!
Verification of the OpenJSCAD CLI front-end (`js/future-cli.js`):
a shallow embedding of its argument parsing (`parseArgs`) and output
resolution (`determineOutputNameAndFormat`), together with theorems
about the behaviours documented for those functions.

Modelling conventions:
* JavaScript values of the CLI's `let` bindings (`inputFile`,
  `outputFormat`, ...) are either `undefined`, `null`, or a string;
  they are embedded as `JSVal`.
* `console.log(...)` diagnostics followed by `process.exit(1)` are
  embedded as `Except.error` with a `CliError` tag naming the
  diagnostic; an uncaught JavaScript exception (a `TypeError`, or the
  `ENOENT` error thrown by `fs.statSync` on a missing path) is likewise
  an `Except.error` with its own tag, distinct from the printed
  diagnostics.
* The file system is a function from paths to an optional stat record:
  `none` means the path does not exist (so `fs.statSync` throws).
-/

/-- Possible values of the CLI's string-or-unset variables. -/
inductive JSVal where
  | undefined
  | null
  | str (s : String)
deriving DecidableEq, Repr

/-- JavaScript truthiness restricted to `JSVal`: `undefined` and `null`
are falsy, a string is truthy exactly when it is non-empty. -/
def JSVal.truthy : JSVal → Bool
  | .str s => if s = "" then false else true
  | _ => false

/-- Terminal outcomes of the CLI that abort the conversion.
`usageError`, `fileNotFound` and `invalidOutput` embed the
`console.log` diagnostic followed by `process.exit(1)`; `statError`
embeds the ENOENT exception thrown by `fs.statSync` on a path that does
not exist; `typeError` embeds a TypeError from calling a method on
`undefined` or `null`. -/
inductive CliError where
  | usageError
  | fileNotFound
  | invalidOutput
  | statError
  | typeError
deriving DecidableEq, Repr

/-- Modelled from the spec: the `-v` branch calls `OpenJsCad.env()` and
`openscad.version()`, which live outside the reviewed source; the spec
describes them as an environment/version report that is a side effect
only, after which parsing continues.  The report is recorded as an
event. -/
inductive CliEvent where
  | versionReport
deriving DecidableEq, Repr

/-- Stat record for a path, as consulted by `fs.statSync(...).isFile()`. -/
structure FileStat where
  isFile : Bool
deriving DecidableEq, Repr

/-- The file system: `none` means the path does not exist. -/
def FS := String → Option FileStat

/-- The variables accumulated by the `parseArgs` loop; also the
`ConversionRequest` returned on success. -/
structure ParseState where
  inputFile : JSVal := .undefined
  inputFormat : JSVal := .undefined
  outputFile : JSVal := .undefined
  outputFormat : JSVal := .undefined
  gMainParam : List (String × JSVal) := []
  events : List CliEvent := []
deriving DecidableEq, Repr

/-- Result of `determineOutputNameAndFormat`. -/
structure ResolvedOutput where
  outputFormat : JSVal
  outputFile : JSVal
deriving DecidableEq, Repr

/-- ASCII lower-casing of one character, as the `i` regex flag applies
it to the extension alternatives. -/
def jsCharLower (c : Char) : Char :=
  if 'A' ≤ c && c ≤ 'Z' then Char.ofNat (c.toNat + 32) else c

/-- ASCII lower-casing of a string, character by character. -/
def lowerStr (s : String) : String :=
  String.mk (s.data.map jsCharLower)

/-- JavaScript regex `\w`: ASCII letters, digits and underscore. -/
def jsIsWordChar (c : Char) : Bool :=
  (('a' ≤ c && c ≤ 'z') || ('A' ≤ c && c ≤ 'Z') || ('0' ≤ c && c ≤ '9') || c = '_')

/-- JavaScript regex `\s` (the characters relevant to CLI tokens). -/
def jsIsSpace (c : Char) : Bool :=
  (c = ' ' || c = '\t' || c = '\n' || c = '\r' || c = '\x0b' || c = '\x0c' || c = ' ')

/-- JavaScript line terminators, which `.` does not match. -/
def jsIsLineTerm (c : Char) : Bool :=
  (c = '\n' || c = '\r' || c = Char.ofNat 0x2028 || c = Char.ofNat 0x2029)

/-- Split a character list at its first `'.'`: returns the dot-free
part before it and the remainder (which starts with `'.'` when a dot
exists). -/
def splitNoDot : List Char → List Char × List Char
  | [] => ([], [])
  | c :: cs =>
    if c = '.' then ([], c :: cs)
    else
      let p := splitNoDot cs
      (c :: p.1, p.2)

/-- Split a string at its last `'.'`: `some (before, after)` with
`s = before ++ "." ++ after` and `after` dot-free, `none` when `s` has
no dot.  This is the shared skeleton of the CLI's anchored extension
regexes `\.(...)$`: since every alternative is dot-free, such a regex
matches exactly when the segment after the last dot is one of the
alternatives. -/
def lastExtSplit (s : String) : Option (String × String) :=
  let p := splitNoDot s.data.reverse
  match p.2 with
  | '.' :: beforeRev => some (String.mk beforeRev.reverse, String.mk p.1.reverse)
  | _ => none

/-- Input extensions of the regex
`/.+\.(jscad|js|scad|stl|amf|obj|gcode|svg|json)$/i`. -/
def inputExts : List String :=
  ["jscad", "js", "scad", "stl", "amf", "obj", "gcode", "svg", "json"]

/-- Output extensions of the case-sensitive regex
`/\.(jscad|js|stl|amf|dxf|svg)$/` used on the output file name. -/
def outputExts : List String :=
  ["jscad", "js", "stl", "amf", "dxf", "svg"]

/-- Output-format tokens of the regex
`/(jscad|js|stl|stla|stlb|amf|dxf|svg)/i`, in alternation order. -/
def outputFormatTokens : List String :=
  ["jscad", "js", "stl", "stla", "stlb", "amf", "dxf", "svg"]

/-- The capture of `t.match(/.+\.(jscad|js|scad|stl|amf|obj|gcode|svg|json)$/i)`:
the segment after the last dot, kept in its original case, provided its
lower-casing is a known input extension and at least one `.`-matchable
character precedes the dot (`.+` needs one non-line-terminator before
the literal dot).  `none` when the regex does not match. -/
def inputExtCapture (t : String) : Option String :=
  match lastExtSplit t with
  | some (before, ext) =>
    match before.data.reverse with
    | c :: _ =>
      if inputExts.contains (lowerStr ext) && !jsIsLineTerm c then some ext else none
    | [] => none
  | none => none

/-- The capture of `s.match(/\.(jscad|js|stl|amf|dxf|svg)$/)` (no `i`
flag: case-sensitive): the segment after the last dot when it is
exactly one of the output extensions. -/
def outputExtCapture (s : String) : Option String :=
  match lastExtSplit s with
  | some (_, ext) => if outputExts.contains ext then some ext else none
  | none => none

/-- Case-insensitive comparison of a pattern with the front of a
character list. -/
def ciStartsWith : List Char → List Char → Bool
  | [], _ => true
  | _ :: _, [] => false
  | p :: ps, c :: cs => p.toLower = c.toLower && ciStartsWith ps cs

/-- At one position, try the alternatives of
`/(jscad|js|stl|stla|stlb|amf|dxf|svg)/i` in order and return the
matched slice of the subject (in its original case). -/
def tryOutTokens (s : List Char) : Option (List Char) :=
  (outputFormatTokens.find? (fun tok => ciStartsWith tok.data s)).map
    (fun tok => s.take tok.data.length)

/-- The capture of `f.match(/(jscad|js|stl|stla|stlb|amf|dxf|svg)/i)`:
an unanchored, case-insensitive search; at the leftmost matching
position the first alternative (in order) wins, and the capture is the
matched text in its original case. -/
def searchOutToken : List Char → Option (List Char)
  | [] => none
  | c :: cs =>
    match tryOutTokens (c :: cs) with
    | some m => some m
    | none => searchOutToken cs

/-- `ext.replace(/stl[ab]/, 'stl')`: drop the trailing `a`/`b` of the
first (case-sensitive) occurrence of `stla`/`stlb`. -/
def replaceStlAB : List Char → List Char
  | 's' :: 't' :: 'l' :: 'a' :: rest => 's' :: 't' :: 'l' :: rest
  | 's' :: 't' :: 'l' :: 'b' :: rest => 's' :: 't' :: 'l' :: rest
  | c :: cs => c :: replaceStlAB cs
  | [] => []

/-- `s.replace(/\.([^\.]+)$/, '.' + ext)`: replace the non-empty final
extension of `s` (the segment after the last dot) with `ext`; when `s`
has no dot or ends in a dot the regex does not match and `s` is
returned unchanged. -/
def replaceLastExt (s : String) (ext : List Char) : String :=
  match lastExtSplit s with
  | some (before, after) =>
    if after = "" then s else before ++ "." ++ String.mk ext
  | none => s

/-- The third `else if` and final `else` of
`determineOutputNameAndFormat`: `outputFormat.match(...)` throws a
TypeError when `outputFormat` is `undefined`/`null`; on a successful
search, when `outputFile` is falsy it is synthesized from `inputFile`
(`outputFile.replace` on an unset `inputFile` likewise throws). -/
def outputFormatCheck (outputFormat outputFile inputFile : JSVal) :
    Except CliError ResolvedOutput :=
  match outputFormat with
  | .str f =>
    match searchOutToken f.data with
    | some extMatch =>
      if outputFile.truthy then .ok ⟨outputFormat, outputFile⟩
      else
        match inputFile with
        | .str inp =>
          .ok ⟨outputFormat, .str (replaceLastExt inp (replaceStlAB extMatch))⟩
        | _ => .error .typeError
    | none => .error .invalidOutput
  | _ => .error .typeError

/-- `determineOutputNameAndFormat(outputFormat, outputFile)` (which
also reads the module-level `inputFile`): the first branch derives the
format from the output file's extension, the second rejects an output
file whose extension is unknown, the remaining branches validate the
explicit format and synthesize the output file name. -/
def determineOutputNameAndFormat (outputFormat outputFile inputFile : JSVal) :
    Except CliError ResolvedOutput :=
  match outputFormat.truthy, outputFile with
  | false, .str s =>
    if s = "" then outputFormatCheck outputFormat outputFile inputFile
    else
      match outputExtCapture s with
      | some ext => .ok ⟨.str ext, outputFile⟩
      | none => .error .invalidOutput
  | _, _ => outputFormatCheck outputFormat outputFile inputFile

/-- `args[i].match(/^-o(\S.+)/)`: `-o`, one non-space character, and at
least one `.`-matchable character after it. -/
def oFlagGlued (t : String) : Bool :=
  match t.data with
  | '-' :: 'o' :: c2 :: c3 :: _ => !jsIsSpace c2 && !jsIsLineTerm c3
  | _ => false

/-- `outputFile.replace(/^\-o(\S+)$/, '$1')`: strip the `-o` prefix
when everything after it is non-space; otherwise the token is kept
whole. -/
def oFlagStrip (t : String) : String :=
  match t.data with
  | '-' :: 'o' :: c :: cs =>
    if (c :: cs).all (fun ch => !jsIsSpace ch) then String.mk (c :: cs) else t
  | _ => t

/-- Longest run of `\w` characters at the front of a list. -/
def spanWord : List Char → List Char × List Char
  | [] => ([], [])
  | c :: cs =>
    if jsIsWordChar c then
      let p := spanWord cs
      (c :: p.1, p.2)
    else ([], c :: cs)

/-- `args[i].match(/^--(\w+)=(.*)/)`: name and value of the one-token
parameter form.  `(.*)` stops at a line terminator. -/
def paramEq (t : String) : Option (String × String) :=
  match t.data with
  | '-' :: '-' :: rest =>
    match spanWord rest with
    | ([], _) => none
    | (w, '=' :: v) => some (String.mk w, String.mk (v.takeWhile (fun c => !jsIsLineTerm c)))
    | (_, _) => none
  | _ => none

/-- `args[i].match(/^--(\w+)$/)`: the parameter name of the two-token
form. -/
def paramBare (t : String) : Option String :=
  match t.data with
  | '-' :: '-' :: c :: cs =>
    if (c :: cs).all jsIsWordChar then some (String.mk (c :: cs)) else none
  | _ => none

/-- `gMainParam[name] = value`: JavaScript object assignment —
overwrite in place when the key exists, append otherwise. -/
def jsObjSet : List (String × JSVal) → String → JSVal → List (String × JSVal)
  | [], k, v => [(k, v)]
  | (k', v') :: rest, k, v =>
    if k' = k then (k, v) :: rest else (k', v') :: jsObjSet rest k v

/-- The `for` loop of `parseArgs`, one token at a time, in the source's
branch order (`-of`, glued `-o…`, `-o`, `--name=value`, `--name value`,
input-extension token, `-v`, error).  `args[++i]` past the end of the
array is `undefined`. -/
def parseLoop (fs : FS) : List String → ParseState → Except CliError ParseState
  | [], st => .ok st
  | t :: rest, st =>
    if t = "-of" then
      match rest with
      | v :: rest2 => parseLoop fs rest2 { st with outputFormat := JSVal.str v }
      | [] => .ok { st with outputFormat := JSVal.undefined }
    else if oFlagGlued t then
      parseLoop fs rest { st with outputFile := JSVal.str (oFlagStrip t) }
    else if t = "-o" then
      match rest with
      | v :: rest2 => parseLoop fs rest2 { st with outputFile := JSVal.str v }
      | [] => .ok { st with outputFile := JSVal.undefined }
    else
      match paramEq t with
      | some nv =>
        parseLoop fs rest { st with gMainParam := jsObjSet st.gMainParam nv.1 (JSVal.str nv.2) }
      | none =>
        match paramBare t with
        | some n =>
          match rest with
          | v :: rest2 =>
            parseLoop fs rest2 { st with gMainParam := jsObjSet st.gMainParam n (JSVal.str v) }
          | [] => .ok { st with gMainParam := jsObjSet st.gMainParam n JSVal.undefined }
        | none =>
          match inputExtCapture t with
          | some ext =>
            match fs t with
            | none => .error .statError
            | some stt =>
              if stt.isFile then
                parseLoop fs rest { st with inputFile := JSVal.str t, inputFormat := JSVal.str ext }
              else .error .fileNotFound
          | none =>
            if t = "-v" then
              parseLoop fs rest { st with events := st.events ++ [CliEvent.versionReport] }
            else .error .usageError

/-- `parseArgs(args)`: usage message on an empty argument list; the
token loop; then the source's literal `if (inputFile === null)
process.exit(1)` check (`inputFile` is `undefined` or a string, never
`null`); then the default fill `outputFormat = 'stla'` when neither
output flag was given. -/
def parseArgs (fs : FS) (args : List String) : Except CliError ParseState :=
  if args.length < 1 then .error .usageError
  else
    match parseLoop fs args {} with
    | .error e => .error e
    | .ok st =>
      if st.inputFile = JSVal.null then .error .usageError
      else if !st.outputFormat.truthy && !st.outputFile.truthy then
        .ok { st with outputFormat := JSVal.str "stla" }
      else .ok st

/-- The main sequencing of the CLI up to output resolution:
`parseArgs` then `determineOutputNameAndFormat`; an error at either
stage aborts before any decoding or encoding. -/
def cliMain (fs : FS) (args : List String) :
    Except CliError (ParseState × ResolvedOutput) :=
  match parseArgs fs args with
  | .error e => .error e
  | .ok st =>
    match determineOutputNameAndFormat st.outputFormat st.outputFile st.inputFile with
    | .error e => .error e
    | .ok out => .ok (st, out)

/-- A file system on which every path is an existing regular file. -/
def fsAlwaysFile : FS := fun _ => some ⟨true⟩

/-- A file system on which no path exists. -/
def fsEmpty : FS := fun _ => none

example : determineOutputNameAndFormat (.str "stla") .undefined (.str "model.jscad")
    = .ok ⟨.str "stla", .str "model.stl"⟩ := by rfl

example : parseArgs fsAlwaysFile ["model.jscad"]
    = .ok ⟨.str "model.jscad", .str "jscad", .undefined, .str "stla", [], []⟩ := by rfl

example : determineOutputNameAndFormat (.str "json") .undefined (.str "model.jscad")
    = .ok ⟨.str "json", .str "model.js"⟩ := by rfl

example : determineOutputNameAndFormat .undefined (.str "out.unknown") .undefined
    = .error .invalidOutput := by rfl

example : parseArgs fsEmpty ["-o", "out.stl"]
    = .ok ⟨.undefined, .undefined, .str "out.stl", .undefined, [], []⟩ := by rfl

example : parseArgs fsEmpty ["--width", "5", "--depth=3"]
    = .ok ⟨.undefined, .undefined, .undefined, .str "stla",
        [("width", .str "5"), ("depth", .str "3")], []⟩ := by rfl

example : parseArgs fsAlwaysFile ["MODEL.STL"]
    = .ok ⟨.str "MODEL.STL", .str "STL", .undefined, .str "stla", [], []⟩ := by rfl

example : parseArgs fsEmpty ["ghost.jscad"] = .error .statError := by rfl

example : parseArgs (fun _ => some ⟨false⟩) ["dir.jscad"] = .error .fileNotFound := by rfl

example : determineOutputNameAndFormat .undefined (.str "OUT.STL") .undefined
    = .error .invalidOutput := by rfl

example : parseArgs fsAlwaysFile ["out.DXF"] = .error .usageError := by rfl

example : parseArgs fsAlwaysFile ["-v", "model.jscad"]
    = .ok ⟨.str "model.jscad", .str "jscad", .undefined, .str "stla", [],
        [.versionReport]⟩ := by rfl

example : determineOutputNameAndFormat (.str "stlb") .undefined (.str "model.jscad")
    = .ok ⟨.str "stlb", .str "model.stl"⟩ := by rfl

example : determineOutputNameAndFormat (.str "amf") (.str "out.svg") .undefined
    = .ok ⟨.str "amf", .str "out.svg"⟩ := by rfl

example : determineOutputNameAndFormat .undefined .undefined .undefined
    = .error .typeError := by rfl

example : parseArgs fsEmpty ["--name", "-o"]
    = .ok ⟨.undefined, .undefined, .undefined, .str "stla",
        [("name", .str "-o")], []⟩ := by rfl

/-! ### Reduction lemmas for the extension machinery on symbolic strings -/

theorem splitNoDot_append (e r : List Char) (he : '.' ∉ e) :
    splitNoDot (e ++ '.' :: r) = (e, '.' :: r) := by
  induction e with
  | nil => simp [splitNoDot]
  | cons c cs ih =>
    have hc : c ≠ '.' := fun h => he (h ▸ List.mem_cons_self c cs)
    have hcs : '.' ∉ cs := fun h => he (List.mem_cons_of_mem c h)
    simp [splitNoDot, hc, ih hcs]

theorem concat_dot_data (base ext : String) :
    (base ++ "." ++ ext).data = base.data ++ '.' :: ext.data := by
  rw [String.data_append, String.data_append, List.append_assoc]
  rfl

theorem lastExtSplit_concat (base ext : String) (h : '.' ∉ ext.data) :
    lastExtSplit (base ++ "." ++ ext) = some (base, ext) := by
  unfold lastExtSplit
  rw [concat_dot_data]
  have hrev : (base.data ++ '.' :: ext.data).reverse
      = ext.data.reverse ++ '.' :: base.data.reverse := by
    simp
  rw [hrev, splitNoDot_append _ _ (by simpa using h)]
  simp

theorem replaceLastExt_concat (base ext : String) (e2 : List Char)
    (h : '.' ∉ ext.data) (hne : ext ≠ "") :
    replaceLastExt (base ++ "." ++ ext) e2 = base ++ "." ++ String.mk e2 := by
  unfold replaceLastExt
  rw [lastExtSplit_concat _ _ h]
  simp [hne]

/-! ### Guard lemmas: which loop branch a token takes -/

theorem dashdash_data (name : String) :
    ("--" ++ name).data = '-' :: '-' :: name.data := by
  rw [String.data_append]; rfl

/-- A token whose first character is not `-` matches none of the flag
branches of the loop. -/
theorem noFlagMatch_of_head (t : String) (b0 : Char) (l : List Char)
    (ht : t.data = b0 :: l) (hb : b0 ≠ '-') :
    t ≠ "-of" ∧ oFlagGlued t = false ∧ t ≠ "-o" ∧ paramEq t = none ∧
      paramBare t = none ∧ t ≠ "-v" := by
  refine ⟨?_, ?_, ?_, ?_, ?_, ?_⟩
  · intro h; rw [h] at ht; exact hb (List.cons.inj ht).1.symm
  · unfold oFlagGlued; rw [ht]; split <;> simp_all
  · intro h; rw [h] at ht; exact hb (List.cons.inj ht).1.symm
  · unfold paramEq; rw [ht]; split <;> simp_all
  · unfold paramBare; rw [ht]; split <;> simp_all
  · intro h; rw [h] at ht; exact hb (List.cons.inj ht).1.symm

/-- A `--`-prefixed token matches neither `-of` nor either `-o` form. -/
theorem dashdash_guards (t : String) (l : List Char)
    (ht : t.data = '-' :: '-' :: l) :
    t ≠ "-of" ∧ oFlagGlued t = false ∧ t ≠ "-o" := by
  refine ⟨?_, ?_, ?_⟩
  · intro h; rw [h] at ht
    exact absurd (List.cons.inj (List.cons.inj ht).2).1 (by simp)
  · unfold oFlagGlued; rw [ht]; split <;> simp_all
  · intro h; rw [h] at ht
    exact absurd (List.cons.inj (List.cons.inj ht).2).1 (by simp)

theorem spanWord_all (l : List Char) (h : l.all jsIsWordChar = true) :
    spanWord l = (l, []) := by
  induction l with
  | nil => simp [spanWord]
  | cons c cs ih =>
    simp only [List.all_cons, Bool.and_eq_true] at h
    simp [spanWord, h.1, ih h.2]

/-- A `--name` token whose name is made only of word characters never
matches the one-token `--name=value` form. -/
theorem paramEq_dashdash_word (name : String)
    (hw : name.data.all jsIsWordChar = true) :
    paramEq ("--" ++ name) = none := by
  unfold paramEq
  rw [dashdash_data]
  show (match spanWord name.data with
    | ([], _) => none
    | (w, '=' :: v) =>
      some (String.mk w, String.mk (v.takeWhile (fun c => !jsIsLineTerm c)))
    | (_, _) => none) = none
  rw [spanWord_all _ hw]
  rcases hd : name.data with _ | ⟨c, cs⟩
  · rfl
  · rfl

/-- A non-empty all-word `--name` token matches the two-token form and
captures the name. -/
theorem paramBare_dashdash_word (name : String) (hne : name.data ≠ [])
    (hw : name.data.all jsIsWordChar = true) :
    paramBare ("--" ++ name) = some name := by
  unfold paramBare
  rw [dashdash_data]
  rcases hd : name.data with _ | ⟨c, cs⟩
  · exact absurd hd hne
  · show (if (c :: cs).all jsIsWordChar = true then some (String.mk (c :: cs)) else none)
      = some name
    rw [hd] at hw
    rw [if_pos hw]
    exact congrArg some (String.ext hd.symm)

/-! ### Step lemmas for `parseLoop` on symbolic tokens -/

/-- A token that matches no flag branch and captures an input extension
steps the loop into the `fs.statSync` check. -/
theorem parseLoop_inputToken (fs : FS) (t ext : String) (rest : List String)
    (st : ParseState)
    (h1 : t ≠ "-of") (h2 : oFlagGlued t = false) (h3 : t ≠ "-o")
    (h4 : paramEq t = none) (h5 : paramBare t = none)
    (hcap : inputExtCapture t = some ext) :
    parseLoop fs (t :: rest) st =
      match fs t with
      | none => .error .statError
      | some stt =>
        if stt.isFile then
          parseLoop fs rest
            { st with inputFile := JSVal.str t, inputFormat := JSVal.str ext }
        else .error .fileNotFound := by
  rcases rest with _ | ⟨v, rest2⟩ <;>
  · simp only [parseLoop]
    rw [if_neg h1, h2, if_neg h3, h4, h5, hcap]
    rfl

/-- The two-token `--name value` form consumes the following token
unconditionally as the parameter's value. -/
theorem parseLoop_dashdash (fs : FS) (name v : String) (rest : List String)
    (st : ParseState) (hne : name.data ≠ [])
    (hw : name.data.all jsIsWordChar = true) :
    parseLoop fs (("--" ++ name) :: v :: rest) st =
      parseLoop fs rest
        { st with gMainParam := jsObjSet st.gMainParam name (JSVal.str v) } := by
  obtain ⟨g1, g2, g3⟩ := dashdash_guards ("--" ++ name) name.data (dashdash_data name)
  simp only [parseLoop]
  rw [if_neg g1, g2, if_neg g3, paramEq_dashdash_word name hw,
    paramBare_dashdash_word name hne hw]
  rfl

/-- The `-v` token only records the version report and continues. -/
theorem parseLoop_v (fs : FS) (rest : List String) (st : ParseState) :
    parseLoop fs ("-v" :: rest) st =
      parseLoop fs rest { st with events := st.events ++ [CliEvent.versionReport] } := by
  rcases rest with _ | ⟨r, rs⟩ <;> rfl

/-- A one-token argument list holding an input-extension token runs the
whole of `parseArgs` up to the `fs.statSync` check; on success the
output-format default `stla` is filled in. -/
theorem parseArgs_single_input (fs : FS) (t ext : String)
    (h1 : t ≠ "-of") (h2 : oFlagGlued t = false) (h3 : t ≠ "-o")
    (h4 : paramEq t = none) (h5 : paramBare t = none)
    (hcap : inputExtCapture t = some ext) :
    parseArgs fs [t] =
      match fs t with
      | none => .error .statError
      | some stt =>
        if stt.isFile then
          .ok ⟨.str t, .str ext, .undefined, .str "stla", [], []⟩
        else .error .fileNotFound := by
  unfold parseArgs
  rw [parseLoop_inputToken fs t ext [] {} h1 h2 h3 h4 h5 hcap]
  cases hfs : fs t with
  | none => rfl
  | some stt =>
    cases stt with
    | mk b => cases b <;> rfl

/-- The input-extension regex captures the final extension of
`base ++ "." ++ ext` in its original case. -/
theorem inputExtCapture_concat (base ext : String) (c : Char) (l : List Char)
    (hrev : base.data.reverse = c :: l) (hc : jsIsLineTerm c = false)
    (hdot : '.' ∉ ext.data)
    (hlow : inputExts.contains (lowerStr ext) = true) :
    inputExtCapture (base ++ "." ++ ext) = some ext := by
  unfold inputExtCapture
  rw [lastExtSplit_concat _ _ hdot]
  show (match base.data.reverse with
    | c :: _ =>
      if inputExts.contains (lowerStr ext) && !jsIsLineTerm c then some ext else none
    | [] => none) = some ext
  rw [hrev]
  show (if inputExts.contains (lowerStr ext) && !jsIsLineTerm c then some ext else none)
    = some ext
  rw [hlow, hc]
  rfl

/-! ### The `inputFile === null` check can never fire -/

/-- `inputFile` is initialised to `undefined` and only ever assigned
strings, so it is never `null` in a state the loop returns. -/
theorem parseLoop_inputFile_never_null (fs : FS) (n : Nat) :
    ∀ (args : List String), args.length ≤ n →
      ∀ (st : ParseState), st.inputFile ≠ JSVal.null →
        ∀ (st' : ParseState), parseLoop fs args st = .ok st' →
          st'.inputFile ≠ JSVal.null := by
  induction n with
  | zero =>
    intro args hlen st hst st' h
    cases args with
    | nil =>
      simp only [parseLoop] at h
      injection h with h2
      subst h2; exact hst
    | cons t rest => simp at hlen
  | succ n ih =>
    intro args hlen st hst st' h
    cases args with
    | nil =>
      simp only [parseLoop] at h
      injection h with h2
      subst h2; exact hst
    | cons t rest =>
      cases rest with
      | nil =>
        rw [parseLoop.eq_3] at h
        repeat' split at h
        all_goals first
          | (injection h with h2; subst h2; first | exact hst | simp)
          | exact absurd h (by simp)
          | exact ih [] (by simp) _ (by first | exact hst | simp) _ h
      | cons v rest2 =>
        have hl2 : rest2.length ≤ n := by
          simp only [List.length_cons] at hlen; omega
        have hl1 : (v :: rest2).length ≤ n := by
          simp only [List.length_cons] at hlen ⊢; omega
        rw [parseLoop.eq_2] at h
        repeat' split at h
        all_goals first
          | (injection h with h2; subst h2; first | exact hst | simp)
          | exact absurd h (by simp)
          | exact ih rest2 hl2 _ (by first | exact hst | simp) _ h
          | exact ih (v :: rest2) hl1 _ (by first | exact hst | simp) _ h

/-! ### Claim theorems -/

/-- C2 (code bug): a non-empty token sequence that sets no input path
does not fail with a usage error — `parseArgs` returns a request whose
`inputFile` is still `undefined`.  The source's guard
`if (inputFile === null) process.exit(1)` (commented "exit if a input
file was not provided") can never fire, because `inputFile` starts as
`undefined` and is only ever assigned strings, never `null`. -/
theorem missing_input_file_returns_request :
    parseArgs fsEmpty ["-o", "out.stl"]
      = .ok ⟨.undefined, .undefined, .str "out.stl", .undefined, [], []⟩
    ∧ ∀ (fs : FS) (args : List String) (st' : ParseState),
        parseLoop fs args {} = .ok st' → st'.inputFile ≠ JSVal.null :=
  ⟨rfl, fun fs args st' h =>
    parseLoop_inputFile_never_null fs args.length args (Nat.le_refl _) {}
      (by simp) st' h⟩

/-- Witness for `missing_input_file_returns_request`: the general
conjunct applied to the concrete argument list `-o out.stl`. -/
theorem missing_input_file_returns_request_witness :
    ParseState.inputFile ⟨.undefined, .undefined, .str "out.stl", .undefined, [], []⟩
      ≠ JSVal.null :=
  missing_input_file_returns_request.2 fsEmpty ["-o", "out.stl"] _ rfl

/-- C3: with `-of stlb` (or `-of stla`) and no output path, the output
path is synthesized by replacing the input path's extension with
`.stl`, while the returned output format keeps the original
`stlb`/`stla` token, preserving the binary-vs-ascii distinction. -/
theorem stl_variant_extension_collapse (base iext : String)
    (hdot : '.' ∉ iext.data) (hne : iext ≠ "") :
    determineOutputNameAndFormat (.str "stlb") .undefined (.str (base ++ "." ++ iext))
      = .ok ⟨.str "stlb", .str (base ++ ".stl")⟩
    ∧ determineOutputNameAndFormat (.str "stla") .undefined (.str (base ++ "." ++ iext))
      = .ok ⟨.str "stla", .str (base ++ ".stl")⟩ := by
  have hrepl := replaceLastExt_concat base iext ['s', 't', 'l'] hdot hne
  have hfold : base ++ "." ++ String.mk ['s', 't', 'l'] = base ++ ".stl" := by
    apply String.ext
    rw [concat_dot_data, String.data_append]
  constructor
  · have h1 : determineOutputNameAndFormat (.str "stlb") .undefined
        (.str (base ++ "." ++ iext))
        = .ok ⟨.str "stlb", .str (replaceLastExt (base ++ "." ++ iext) ['s', 't', 'l'])⟩ :=
      rfl
    rw [h1, hrepl, hfold]
  · have h1 : determineOutputNameAndFormat (.str "stla") .undefined
        (.str (base ++ "." ++ iext))
        = .ok ⟨.str "stla", .str (replaceLastExt (base ++ "." ++ iext) ['s', 't', 'l'])⟩ :=
      rfl
    rw [h1, hrepl, hfold]

/-- Witness for `stl_variant_extension_collapse` at `model.jscad`. -/
theorem stl_variant_extension_collapse_witness :
    determineOutputNameAndFormat (.str "stlb") .undefined
        (.str ("model" ++ "." ++ "jscad"))
      = .ok ⟨.str "stlb", .str ("model" ++ ".stl")⟩
    ∧ determineOutputNameAndFormat (.str "stla") .undefined
        (.str ("model" ++ "." ++ "jscad"))
      = .ok ⟨.str "stla", .str ("model" ++ ".stl")⟩ :=
  stl_variant_extension_collapse "model" "jscad" (by decide) (by decide)

/-- C4: for input `model.jscad` with no output flags, parsing defaults
the output format to `stla`, and resolution yields output path
`model.stl` with output format `stla`. -/
theorem default_output_is_ascii_stl (fs : FS)
    (h : fs "model.jscad" = some ⟨true⟩) :
    parseArgs fs ["model.jscad"]
      = .ok ⟨.str "model.jscad", .str "jscad", .undefined, .str "stla", [], []⟩
    ∧ determineOutputNameAndFormat (.str "stla") .undefined (.str "model.jscad")
      = .ok ⟨.str "stla", .str "model.stl"⟩ := by
  refine ⟨?_, rfl⟩
  rw [parseArgs_single_input fs "model.jscad" "jscad" (by decide) (by decide)
    (by decide) (by decide) (by decide) (by decide), h]
  rfl

/-- Witness for `default_output_is_ascii_stl` on a file system where
`model.jscad` is a regular file. -/
theorem default_output_is_ascii_stl_witness :
    parseArgs fsAlwaysFile ["model.jscad"]
      = .ok ⟨.str "model.jscad", .str "jscad", .undefined, .str "stla", [], []⟩
    ∧ determineOutputNameAndFormat (.str "stla") .undefined (.str "model.jscad")
      = .ok ⟨.str "stla", .str "model.stl"⟩ :=
  default_output_is_ascii_stl fsAlwaysFile rfl

/-- C6: when an explicit (non-empty) output-format override and an
output path are both present and resolution succeeds, the resolved
format is the override token and the resolved path is the given path,
whatever the path's extension. -/
theorem explicit_override_wins (f p : String) (inp : JSVal) (r : ResolvedOutput)
    (hf : f ≠ "") (hp : p ≠ "")
    (h : determineOutputNameAndFormat (.str f) (.str p) inp = .ok r) :
    r.outputFormat = JSVal.str f ∧ r.outputFile = JSVal.str p := by
  have htr : JSVal.truthy (.str f) = true := by simp [JSVal.truthy, hf]
  have htp : JSVal.truthy (.str p) = true := by simp [JSVal.truthy, hp]
  have hred : determineOutputNameAndFormat (.str f) (.str p) inp
      = outputFormatCheck (.str f) (.str p) inp := by
    unfold determineOutputNameAndFormat
    rw [htr]
  rw [hred] at h
  rcases hs : searchOutToken f.data with _ | m
  · have he : outputFormatCheck (.str f) (.str p) inp = .error .invalidOutput := by
      simp only [outputFormatCheck]
      rw [hs]
    rw [he] at h
    exact absurd h (by simp)
  · have he : outputFormatCheck (.str f) (.str p) inp = .ok ⟨.str f, .str p⟩ := by
      simp only [outputFormatCheck]
      rw [hs, htp]
      rfl
    rw [he] at h
    injection h with h2
    subst h2
    exact ⟨rfl, rfl⟩

/-- Witness for `explicit_override_wins`: `-of amf -o out.svg` resolves
to format `amf` despite the `.svg` extension. -/
theorem explicit_override_wins_witness :
    ResolvedOutput.outputFormat ⟨.str "amf", .str "out.svg"⟩ = JSVal.str "amf"
    ∧ ResolvedOutput.outputFile ⟨.str "amf", .str "out.svg"⟩ = JSVal.str "out.svg" :=
  explicit_override_wins "amf" "out.svg" .undefined ⟨.str "amf", .str "out.svg"⟩
    (by decide) (by decide) rfl

/-- C8: `--width 5 --depth=3` produces the named parameters
width = "5" and depth = "3"; in general the two-token `--name value`
form consumes the token after `--name` unconditionally as its value,
even when that token looks like another flag. -/
theorem named_parameter_forms :
    parseArgs fsEmpty ["--width", "5", "--depth=3"]
      = .ok ⟨.undefined, .undefined, .undefined, .str "stla",
          [("width", .str "5"), ("depth", .str "3")], []⟩
    ∧ ∀ (fs : FS) (name v : String) (rest : List String) (st : ParseState),
        name.data ≠ [] → name.data.all jsIsWordChar = true →
        parseLoop fs (("--" ++ name) :: v :: rest) st
          = parseLoop fs rest
              { st with gMainParam := jsObjSet st.gMainParam name (JSVal.str v) } :=
  ⟨rfl, fun fs name v rest st hne hw => parseLoop_dashdash fs name v rest st hne hw⟩

/-- Witness for `named_parameter_forms`: `--name` swallows the
flag-shaped token `-o` as its value. -/
theorem named_parameter_forms_witness :
    parseLoop fsEmpty [("--" ++ "name"), "-o"] {}
      = parseLoop fsEmpty []
          { gMainParam := [("name", JSVal.str "-o")] } :=
  named_parameter_forms.2 fsEmpty "name" "-o" [] {} (by decide) (by decide)

/-- C9: a `-v` token records the environment/version report as a side
effect, sets no request fields, and parsing continues, so
`-v model.jscad` still yields a request with input path `model.jscad`.
The report itself is modelled from the spec, since `OpenJsCad.env` and
`openscad.version` live outside the reviewed source. -/
theorem version_flag_reports_and_continues (fs : FS)
    (h : fs "model.jscad" = some ⟨true⟩) :
    parseArgs fs ["-v", "model.jscad"]
      = .ok ⟨.str "model.jscad", .str "jscad", .undefined, .str "stla", [],
          [.versionReport]⟩
    ∧ ∀ (rest : List String) (st : ParseState),
        parseLoop fs ("-v" :: rest) st
          = parseLoop fs rest { st with events := st.events ++ [CliEvent.versionReport] } := by
  constructor
  · unfold parseArgs
    rw [parseLoop_v]
    rw [parseLoop_inputToken fs "model.jscad" "jscad" [] _ (by decide) (by decide)
      (by decide) (by decide) (by decide) (by decide), h]
    rfl
  · intro rest st
    exact parseLoop_v fs rest st

/-- Witness for `version_flag_reports_and_continues` on a file system
where `model.jscad` exists. -/
theorem version_flag_reports_and_continues_witness :
    parseArgs fsAlwaysFile ["-v", "model.jscad"]
      = .ok ⟨.str "model.jscad", .str "jscad", .undefined, .str "stla", [],
          [.versionReport]⟩ :=
  (version_flag_reports_and_continues fsAlwaysFile rfl).1

/-- C5 counterexample: the parser keeps the matched extension's
original case — `MODEL.STL` yields inputFormat `STL`, not the
lowercased `stl` the claim states. -/
theorem uppercase_extension_not_lowercased :
    parseArgs fsAlwaysFile ["MODEL.STL"]
      = .ok ⟨.str "MODEL.STL", .str "STL", .undefined, .str "stla", [], []⟩
    ∧ JSVal.str "STL" ≠ JSVal.str "stl" := ⟨rfl, by decide⟩

/-- A bare token `base.ext` (not starting with `-`) whose extension
lower-cases to a known input extension parses to a request holding the
token and its original-case extension, with the `stla` default filled
in. -/
theorem bareInputToken_parse (fs : FS) (base ext : String)
    (c : Char) (l : List Char)
    (hrev : base.data.reverse = c :: l) (hc : jsIsLineTerm c = false)
    (hdash : (base ++ "." ++ ext).data.head? ≠ some '-')
    (hdot : '.' ∉ ext.data)
    (hlow : inputExts.contains (lowerStr ext) = true)
    (hfs : fs (base ++ "." ++ ext) = some ⟨true⟩) :
    parseArgs fs [base ++ "." ++ ext]
      = .ok ⟨.str (base ++ "." ++ ext), .str ext, .undefined, .str "stla", [], []⟩ := by
  have hcap := inputExtCapture_concat base ext c l hrev hc hdot hlow
  obtain ⟨b0, l0, hd⟩ : ∃ b0 l0, (base ++ "." ++ ext).data = b0 :: l0 := by
    rcases hdata : (base ++ "." ++ ext).data with _ | ⟨x, xs⟩
    · rw [concat_dot_data] at hdata
      exact absurd hdata (by simp)
    · exact ⟨x, xs, rfl⟩
  have hb0 : b0 ≠ '-' := fun he => hdash (by rw [hd, he]; rfl)
  obtain ⟨g1, g2, g3, g4, g5, _⟩ := noFlagMatch_of_head _ b0 l0 hd hb0
  rw [parseArgs_single_input fs _ ext g1 g2 g3 g4 g5 hcap, hfs]
  rfl

/-- C5 (amended): a bare token `base.ext` (not starting with `-`) whose
extension lower-cases to a known input extension sets `inputFile` to
the token and `inputFormat` to the matched extension in its original
case (not lowercased). -/
theorem input_extension_kept_original_case (fs : FS) (base ext : String)
    (c : Char) (l : List Char)
    (hrev : base.data.reverse = c :: l) (hc : jsIsLineTerm c = false)
    (hdash : (base ++ "." ++ ext).data.head? ≠ some '-')
    (hdot : '.' ∉ ext.data)
    (hlow : inputExts.contains (lowerStr ext) = true)
    (hfs : fs (base ++ "." ++ ext) = some ⟨true⟩) :
    parseArgs fs [base ++ "." ++ ext]
      = .ok ⟨.str (base ++ "." ++ ext), .str ext, .undefined, .str "stla", [], []⟩ :=
  bareInputToken_parse fs base ext c l hrev hc hdash hdot hlow hfs

/-- Witness for `input_extension_kept_original_case` at `MODEL.STL`. -/
theorem input_extension_kept_original_case_witness :
    parseArgs fsAlwaysFile ["MODEL" ++ "." ++ "STL"]
      = .ok ⟨.str ("MODEL" ++ "." ++ "STL"), .str "STL", .undefined,
          .str "stla", [], []⟩ :=
  input_extension_kept_original_case fsAlwaysFile "MODEL" "STL" 'L'
    ['E', 'D', 'O', 'M'] (by decide) (by decide) (by decide) (by decide)
    (by decide) rfl

/-- C7 counterexample: for an input path that does not exist at all,
the run aborts with the uncaught `fs.statSync` exception, not with the
`cannot open file` diagnostic the claim calls FileNotFoundError. -/
theorem nonexistent_input_raises_stat_exception :
    cliMain fsEmpty ["ghost.jscad"] = .error .statError
    ∧ CliError.statError ≠ CliError.fileNotFound := ⟨rfl, by decide⟩

/-- C7 (amended): for an input token whose path is not an existing
regular file, the run aborts before any output resolution or
conversion: with the uncaught stat exception when the path does not
exist, and with the FileNotFoundError diagnostic when the path exists
but is not a regular file. -/
theorem irregular_input_aborts_before_resolution (fs : FS) (t ext : String)
    (hcap : inputExtCapture t = some ext)
    (hdash : t.data.head? ≠ some '-') :
    (fs t = none → cliMain fs [t] = .error .statError)
    ∧ ∀ stt, fs t = some stt → stt.isFile = false →
        cliMain fs [t] = .error .fileNotFound := by
  obtain ⟨b0, l0, hd⟩ : ∃ b0 l0, t.data = b0 :: l0 := by
    rcases hdata : t.data with _ | ⟨x, xs⟩
    · exfalso
      unfold inputExtCapture lastExtSplit at hcap
      rw [hdata] at hcap
      simp [splitNoDot] at hcap
    · exact ⟨x, xs, rfl⟩
  have hb0 : b0 ≠ '-' := fun he => hdash (by rw [hd, he]; rfl)
  obtain ⟨g1, g2, g3, g4, g5, _⟩ := noFlagMatch_of_head t b0 l0 hd hb0
  have hps := parseArgs_single_input fs t ext g1 g2 g3 g4 g5 hcap
  constructor
  · intro hfs
    have hpa : parseArgs fs [t] = .error .statError := by rw [hps, hfs]
    unfold cliMain
    rw [hpa]
  · intro stt hfs hisf
    have hpa : parseArgs fs [t] = .error .fileNotFound := by
      rw [hps, hfs]
      show (if stt.isFile = true then
          Except.ok (⟨JSVal.str t, JSVal.str ext, JSVal.undefined,
            JSVal.str "stla", [], []⟩ : ParseState)
        else Except.error CliError.fileNotFound) = Except.error CliError.fileNotFound
      rw [hisf]
      rfl
    unfold cliMain
    rw [hpa]

/-- Witness for `irregular_input_aborts_before_resolution`: a missing
path and an existing non-regular path. -/
theorem irregular_input_aborts_before_resolution_witness :
    cliMain fsEmpty ["ghost.jscad"] = .error .statError
    ∧ cliMain (fun _ => some ⟨false⟩) ["dir.jscad"] = .error .fileNotFound :=
  ⟨(irregular_input_aborts_before_resolution fsEmpty "ghost.jscad" "jscad"
      rfl (by decide)).1 rfl,
   (irregular_input_aborts_before_resolution (fun _ => some ⟨false⟩) "dir.jscad"
      "jscad" rfl (by decide)).2 ⟨false⟩ rfl rfl⟩

/-- C10 counterexample: `dxf` is an output extension but not an input
extension, so the token `out.DXF` — whose extension is a case variant
of a supported output extension — is not accepted as an input file at
all; it hits the invalid-argument usage error. -/
theorem dxf_case_variant_rejected_as_input :
    determineOutputNameAndFormat .undefined (.str "out.DXF") .undefined
      = .error .invalidOutput
    ∧ parseArgs fsAlwaysFile ["out.DXF"] = .error .usageError := ⟨rfl, rfl⟩

/-- Every output extension is already lowercase. -/
theorem outputExts_lower_fixed : ∀ x ∈ outputExts, lowerStr x = x := by decide

/-- C10 (amended): output-path extension matching is case-sensitive
while input matching is case-insensitive: an upper- or mixed-case
variant of a supported output extension fails resolution with
InvalidOutputError, and the same token is still accepted as an input
file (with the original-case extension) whenever its lowercasing is
also an input extension. -/
theorem output_case_sensitive_input_not (base EXT : String)
    (hdot : '.' ∉ EXT.data)
    (hlow : outputExts.contains (lowerStr EXT) = true)
    (hmix : EXT ≠ lowerStr EXT) :
    determineOutputNameAndFormat .undefined (.str (base ++ "." ++ EXT)) .undefined
      = .error .invalidOutput
    ∧ (∀ (fs : FS) (c : Char) (l : List Char),
        base.data.reverse = c :: l → jsIsLineTerm c = false →
        (base ++ "." ++ EXT).data.head? ≠ some '-' →
        inputExts.contains (lowerStr EXT) = true →
        fs (base ++ "." ++ EXT) = some ⟨true⟩ →
        parseArgs fs [base ++ "." ++ EXT]
          = .ok ⟨.str (base ++ "." ++ EXT), .str EXT, .undefined,
              .str "stla", [], []⟩) := by
  constructor
  · have hne : ¬(base ++ "." ++ EXT = "") := by
      intro hemp
      have := congrArg String.data hemp
      rw [concat_dot_data] at this
      simp at this
    have hnotin : outputExts.contains EXT = false := by
      by_contra hx
      have hmem : EXT ∈ outputExts :=
        List.mem_of_elem_eq_true (Bool.of_not_eq_false hx)
      exact hmix ((outputExts_lower_fixed EXT hmem).symm)
    have hcap : outputExtCapture (base ++ "." ++ EXT) = none := by
      unfold outputExtCapture
      rw [lastExtSplit_concat _ _ hdot]
      show (if outputExts.contains EXT then some EXT else none) = none
      rw [hnotin]
      rfl
    show determineOutputNameAndFormat _ _ _ = _
    unfold determineOutputNameAndFormat
    show (if (base ++ "." ++ EXT) = "" then
        outputFormatCheck .undefined (.str (base ++ "." ++ EXT)) .undefined
      else
        match outputExtCapture (base ++ "." ++ EXT) with
        | some ext => .ok ⟨.str ext, .str (base ++ "." ++ EXT)⟩
        | none => .error .invalidOutput) = .error .invalidOutput
    rw [if_neg hne, hcap]
  · intro fs c l hrev hc hdash hin hfs
    exact bareInputToken_parse fs base EXT c l hrev hc hdash hdot hin hfs

/-- Witness for `output_case_sensitive_input_not` at `OUT.STL`. -/
theorem output_case_sensitive_input_not_witness :
    determineOutputNameAndFormat .undefined (.str ("OUT" ++ "." ++ "STL")) .undefined
      = .error .invalidOutput
    ∧ parseArgs fsAlwaysFile ["OUT" ++ "." ++ "STL"]
      = .ok ⟨.str ("OUT" ++ "." ++ "STL"), .str "STL", .undefined,
          .str "stla", [], []⟩ := by
  have h := output_case_sensitive_input_not "OUT" "STL" (by decide) (by decide)
    (by decide)
  exact ⟨h.1, h.2 fsAlwaysFile 'T' ['U', 'O'] (by decide) (by decide) (by decide)
    (by decide) rfl⟩

/-- C1 counterexample: override validation is an unanchored substring
search, so `json` — which is outside the output-format token set —
passes (it contains `js`) and resolution succeeds, even synthesizing a
`.js` output name. -/
theorem json_override_passes_validation :
    determineOutputNameAndFormat (.str "json") .undefined (.str "model.jscad")
      = .ok ⟨.str "json", .str "model.js"⟩
    ∧ "json" ∉ outputFormatTokens := ⟨rfl, by decide⟩

/-- The format-token branch fails with InvalidOutputError exactly when
the override is a string in which the substring search finds no
token. -/
theorem outputFormatCheck_invalid_iff (fmt file inp : JSVal) :
    outputFormatCheck fmt file inp = .error .invalidOutput ↔
      ∃ f, fmt = JSVal.str f ∧ searchOutToken f.data = none := by
  cases fmt with
  | undefined => simp [outputFormatCheck]
  | null => simp [outputFormatCheck]
  | str f =>
    rcases hs : searchOutToken f.data with _ | m
    · have he : outputFormatCheck (.str f) file inp = .error .invalidOutput := by
        simp only [outputFormatCheck]
        rw [hs]
      constructor
      · intro _
        exact ⟨f, rfl, hs⟩
      · intro _
        exact he
    · have hne : outputFormatCheck (.str f) file inp ≠ .error .invalidOutput := by
        simp only [outputFormatCheck]
        rw [hs]
        show (if file.truthy = true then
            Except.ok (⟨JSVal.str f, file⟩ : ResolvedOutput)
          else
            match inp with
            | JSVal.str i =>
              Except.ok (⟨JSVal.str f,
                JSVal.str (replaceLastExt i (replaceStlAB m))⟩ : ResolvedOutput)
            | _ => Except.error CliError.typeError)
          ≠ Except.error CliError.invalidOutput
        split
        · simp
        · cases inp <;> simp
      constructor
      · intro h
        exact absurd h hne
      · rintro ⟨f2, hf2, hsn⟩
        injection hf2 with hff
        subst hff
        rw [hs] at hsn
        cases hsn

/-- C1 (amended): resolution fails with InvalidOutputError exactly when
either (a) the override is falsy (absent or empty), the output path is
a non-empty string, and the path's final extension is not
(case-sensitively) one of the output extensions; or (b) the override is
a string, case (a)'s precondition does not hold, and the override
contains no output-format token as a case-insensitive substring.  With
both override and path absent the failure is a TypeError, not
InvalidOutputError. -/
theorem invalid_output_error_iff (fmt file inp : JSVal) :
    determineOutputNameAndFormat fmt file inp = .error .invalidOutput ↔
      ((fmt.truthy = false
          ∧ ∃ s, file = JSVal.str s ∧ s ≠ "" ∧ outputExtCapture s = none)
       ∨ (∃ f, fmt = JSVal.str f
            ∧ ¬(fmt.truthy = false ∧ ∃ s, file = JSVal.str s ∧ s ≠ "")
            ∧ searchOutToken f.data = none)) := by
  cases hft : fmt.truthy with
  | false =>
    cases file with
    | undefined =>
      have hred : determineOutputNameAndFormat fmt JSVal.undefined inp
          = outputFormatCheck fmt JSVal.undefined inp := by
        unfold determineOutputNameAndFormat
        rw [hft]
      rw [hred, outputFormatCheck_invalid_iff]
      constructor
      · rintro ⟨f, hf, hsn⟩
        exact Or.inr ⟨f, hf, by simp, hsn⟩
      · rintro (⟨_, s, hs1, _, _⟩ | ⟨f, hf, _, hsn⟩)
        · exact absurd hs1 (by simp)
        · exact ⟨f, hf, hsn⟩
    | null =>
      have hred : determineOutputNameAndFormat fmt JSVal.null inp
          = outputFormatCheck fmt JSVal.null inp := by
        unfold determineOutputNameAndFormat
        rw [hft]
      rw [hred, outputFormatCheck_invalid_iff]
      constructor
      · rintro ⟨f, hf, hsn⟩
        exact Or.inr ⟨f, hf, by simp, hsn⟩
      · rintro (⟨_, s, hs1, _, _⟩ | ⟨f, hf, _, hsn⟩)
        · exact absurd hs1 (by simp)
        · exact ⟨f, hf, hsn⟩
    | str s =>
      by_cases hse : s = ""
      · subst hse
        have hred : determineOutputNameAndFormat fmt (JSVal.str "") inp
            = outputFormatCheck fmt (JSVal.str "") inp := by
          unfold determineOutputNameAndFormat
          rw [hft]
          rfl
        rw [hred, outputFormatCheck_invalid_iff]
        constructor
        · rintro ⟨f, hf, hsn⟩
          exact Or.inr ⟨f, hf, by simp, hsn⟩
        · rintro (⟨_, s2, hs1, hs2, _⟩ | ⟨f, hf, _, hsn⟩)
          · injection hs1 with h0
            exact absurd h0.symm hs2
          · exact ⟨f, hf, hsn⟩
      · have hred : determineOutputNameAndFormat fmt (JSVal.str s) inp
            = (match outputExtCapture s with
               | some ext => Except.ok (⟨JSVal.str ext, JSVal.str s⟩ : ResolvedOutput)
               | none => Except.error CliError.invalidOutput) := by
          unfold determineOutputNameAndFormat
          rw [hft]
          show (if s = "" then outputFormatCheck fmt (JSVal.str s) inp
            else match outputExtCapture s with
              | some ext => Except.ok (⟨JSVal.str ext, JSVal.str s⟩ : ResolvedOutput)
              | none => Except.error CliError.invalidOutput)
            = (match outputExtCapture s with
               | some ext => Except.ok (⟨JSVal.str ext, JSVal.str s⟩ : ResolvedOutput)
               | none => Except.error CliError.invalidOutput)
          rw [if_neg hse]
        rw [hred]
        rcases hc : outputExtCapture s with _ | e
        · constructor
          · intro _
            exact Or.inl ⟨rfl, s, rfl, hse, hc⟩
          · intro _
            rfl
        · constructor
          · intro hcontra
            exact absurd hcontra (by simp)
          · rintro (⟨_, s2, h1, _, h3⟩ | ⟨f, _, hnot, _⟩)
            · injection h1 with h0
              subst h0
              rw [hc] at h3
              cases h3
            · exact absurd ⟨rfl, s, rfl, hse⟩ hnot
  | true =>
    have hred : determineOutputNameAndFormat fmt file inp
        = outputFormatCheck fmt file inp := by
      unfold determineOutputNameAndFormat
      rw [hft]
    rw [hred, outputFormatCheck_invalid_iff]
    constructor
    · rintro ⟨f, hf, hsn⟩
      refine Or.inr ⟨f, hf, ?_, hsn⟩
      rintro ⟨hcontra, _⟩
      cases hcontra
    · rintro (⟨hff, _⟩ | ⟨f, hf, _, hsn⟩)
      · cases hff
      · exact ⟨f, hf, hsn⟩

/-- Witness for `invalid_output_error_iff`: an override containing no
token fails with InvalidOutputError. -/
theorem invalid_output_error_iff_witness :
    determineOutputNameAndFormat (.str "xyz") .undefined .undefined
      = .error .invalidOutput :=
  (invalid_output_error_iff (.str "xyz") .undefined .undefined).mpr
    (Or.inr ⟨"xyz", rfl, by simp [JSVal.truthy], by decide⟩)
